import Mathlib

/-!
Verification of the restriction-configuration types of wstunnel
(`src/restrictions/types.rs`): the protocol classifiers, the custom
serde deserializers (non-empty match list, port ranges), and the
default host regex and default CIDR list.

Rust machine integers are modelled as `Nat` with explicit bounds,
strings as `List Char`, and fallible deserialization as
`Except String`.
-/

/-- The transport/protocol identity of a tunnel endpoint (`LocalProtocol`,
declared in the crate root).  The variant list and which variants carry a
payload are taken from the two exhaustive `match`es in
`src/restrictions/types.rs`; the payload contents are never inspected by
the code under verification, so they are abstracted as a type parameter
`α`. -/
inductive LocalProtocol (α : Type) where
  | Tcp (payload : α)
  | Udp (payload : α)
  | Stdio
  | Socks5 (payload : α)
  | TProxyTcp (payload : α)
  | TProxyUdp (payload : α)
  | Unix (payload : α)
  | ReverseTcp
  | ReverseUdp (payload : α)
  | ReverseSocks5
  | ReverseUnix (payload : α)
deriving Repr, DecidableEq

/-- `TunnelConfigProtocol` from `src/restrictions/types.rs`. -/
inductive TunnelConfigProtocol where
  | Tcp
  | Udp
  | Unknown
deriving Repr, DecidableEq

/-- `ReverseTunnelConfigProtocol` from `src/restrictions/types.rs`. -/
inductive ReverseTunnelConfigProtocol where
  | Tcp
  | Udp
  | Socks5
  | Unix
  | Unknown
deriving Repr, DecidableEq

/-- `impl From<&LocalProtocol> for ReverseTunnelConfigProtocol`
(`src/restrictions/types.rs` lines 126-142). -/
def ReverseTunnelConfigProtocol.ofLocalProtocol {α : Type} :
    LocalProtocol α → ReverseTunnelConfigProtocol
  | .Tcp _ => .Unknown
  | .Udp _ => .Unknown
  | .Stdio => .Unknown
  | .Socks5 _ => .Unknown
  | .TProxyTcp _ => .Unknown
  | .TProxyUdp _ => .Unknown
  | .Unix _ => .Unknown
  | .ReverseTcp => .Tcp
  | .ReverseUdp _ => .Udp
  | .ReverseSocks5 => .Socks5
  | .ReverseUnix _ => .Unix

/-- `impl From<&LocalProtocol> for TunnelConfigProtocol`
(`src/restrictions/types.rs` lines 143-159). -/
def TunnelConfigProtocol.ofLocalProtocol {α : Type} :
    LocalProtocol α → TunnelConfigProtocol
  | .ReverseTcp => .Unknown
  | .ReverseUdp _ => .Unknown
  | .ReverseSocks5 => .Unknown
  | .ReverseUnix _ => .Unknown
  | .Stdio => .Unknown
  | .Socks5 _ => .Unknown
  | .TProxyTcp _ => .Unknown
  | .TProxyUdp _ => .Unknown
  | .Unix _ => .Unknown
  | .Tcp _ => .Tcp
  | .Udp _ => .Udp

/-- An ASCII decimal digit, as accepted by Rust's integer `FromStr`. -/
def isDigitChar (c : Char) : Bool := 48 ≤ c.toNat && c.toNat ≤ 57

/-- Value of a string of decimal digits (most significant first). -/
def digitsVal (cs : List Char) : Nat :=
  cs.foldl (fun a c => a * 10 + (c.toNat - 48)) 0

/-- Rust's unsigned `FromStr` accepts one optional leading `+` sign;
this strips it. -/
def stripSign (cs : List Char) : List Char :=
  match cs with
  | [] => []
  | c :: rest => if c = '+' then rest else cs

/-- Model of Rust's `str::parse::<u16>()`: an optional leading `+`, then a
non-empty run of ASCII decimal digits whose value fits in 16 bits;
anything else (empty string, other characters, overflow) fails.  Rust
checks overflow at every accumulation step, but since the accumulator is
monotone this is equivalent to checking the final value. -/
def parseU16 (cs : List Char) : Option Nat :=
  let ds := stripSign cs
  if ds = [] then none
  else if ds.all isDigitChar then
    if digitsVal ds < 65536 then some (digitsVal ds) else none
  else none

/-- Model of Rust's `str::split_once("..")`: splits at the first
occurrence of `..`, returning the text before and after it, or `none`
when `..` does not occur. -/
def splitOnceDots : List Char → Option (List Char × List Char)
  | [] => none
  | c :: rest =>
    if c = '.' ∧ rest.head? = some '.' then some ([], rest.tail)
    else (splitOnceDots rest).map fun p => (c :: p.1, p.2)

/-- The per-element closure of `deserialize_port_range`
(`src/restrictions/types.rs` lines 94-105): a string containing `..` is
split once and both sides parsed as `u16` bounds of an inclusive range;
otherwise the whole string is parsed as a single port `p`, giving range
`[p, p]`.  A `RangeInclusive<u16>` is modelled as the pair
`(start, end)`. -/
def parsePortEntry (cs : List Char) : Except String (Nat × Nat) :=
  match splitOnceDots cs with
  | some (l, r) =>
    match parseU16 l with
    | none => .error "invalid port range start"
    | some lo =>
      match parseU16 r with
      | none => .error "invalid port range end"
      | some hi => .ok (lo, hi)
  | none =>
    match parseU16 cs with
    | none => .error "invalid port"
    | some p => .ok (p, p)

/-- Model of `collect::<Vec<Result<_,_>>>().into_iter().collect::<Result<Vec<_>,_>>()`:
the first error wins, otherwise the list of results. -/
def collectResults : List (Except String α) → Except String (List α)
  | [] => .ok []
  | .error e :: _ => .error e
  | .ok a :: rest => (collectResults rest).map (a :: ·)

/-- `deserialize_port_range` (`src/restrictions/types.rs` lines 87-111),
applied to the already-decoded `Vec<String>`. -/
def deserialize_port_range (ss : List (List Char)) : Except String (List (Nat × Nat)) :=
  collectResults (ss.map parsePortEntry)

/-- Model of `RangeInclusive<u16>::contains`: membership inclusive on
both ends. -/
def rangeContains (r : Nat × Nat) (p : Nat) : Bool :=
  r.1 ≤ p && p ≤ r.2

/-- Syntax of the regular-expression fragment needed to model the
patterns used by `src/restrictions/types.rs`: literal characters, the
any-character class `.`, postfix `*`, and concatenation.  This models the
(third-party) `regex` crate on that fragment. -/
inductive RE where
  | eps
  | chr (c : Char)
  | dot
  | star (r : RE)
  | cat (r1 r2 : RE)
deriving Repr, DecidableEq

/-- Standard regular-expression matching semantics of the fragment.  As
in the `regex` crate's default mode, `.` matches any character except
the newline `'\n'`. -/
inductive REMatches : RE → List Char → Prop where
  | eps : REMatches RE.eps []
  | chr (c : Char) : REMatches (RE.chr c) [c]
  | dot (c : Char) : c ≠ '\n' → REMatches RE.dot [c]
  | cat {r1 r2 : RE} {s1 s2 : List Char} :
      REMatches r1 s1 → REMatches r2 s2 → REMatches (RE.cat r1 r2) (s1 ++ s2)
  | starNil (r : RE) : REMatches (RE.star r) []
  | starCons {r : RE} {s1 s2 : List Char} :
      REMatches r s1 → REMatches (RE.star r) s2 → REMatches (RE.star r) (s1 ++ s2)

/-- A compiled pattern: the `^` / `$` anchors and the body expression. -/
structure CompiledRegex where
  anchorStart : Bool
  body : RE
  anchorEnd : Bool
deriving Repr, DecidableEq

/-- Parse the anchor-free part of a pattern: a sequence of atoms
(a literal character or `.`), each optionally followed by `*`. -/
def parseAtoms : List Char → Option RE
  | [] => some RE.eps
  | [c] =>
    if c = '*' then none
    else some (RE.cat (if c = '.' then RE.dot else RE.chr c) RE.eps)
  | c :: c2 :: rest =>
    if c = '*' then none
    else
      let a := if c = '.' then RE.dot else RE.chr c
      if c2 = '*' then (parseAtoms rest).map (RE.cat (RE.star a))
      else (parseAtoms (c2 :: rest)).map (RE.cat a)

/-- Model of `Regex::new` on the supported fragment: strip a leading `^`
and a trailing `$` as anchors and parse the remainder. -/
def regexNew (pat : List Char) : Option CompiledRegex :=
  let s : Bool := pat.head? = some '^'
  let p1 := if s then pat.tail else pat
  let e : Bool := p1.getLast? = some '$'
  let p2 := if e then p1.dropLast else p1
  (parseAtoms p2).map fun b => ⟨s, b, e⟩

/-- Model of the `regex` crate's `Regex::is_match`: some substring of the
haystack matches the body, where a `^` anchor forces the substring to
start at the beginning and a `$` anchor forces it to end at the end. -/
def CompiledRegex.IsMatch (r : CompiledRegex) (h : List Char) : Prop :=
  ∃ pre mid post, h = pre ++ mid ++ post ∧
    (r.anchorStart = true → pre = []) ∧
    (r.anchorEnd = true → post = []) ∧
    REMatches r.body mid

/-- `default_host` (`src/restrictions/types.rs` lines 79-81):
`Regex::new("^.*$")`.  The `.unwrap()` is modelled by keeping the
`Option` result; the theorem for C6 shows compilation succeeds. -/
def default_host : Option CompiledRegex := regexNew ("^.*$".data)

/-- Model of the `ipnet` crate's `Ipv4Net`: a 32-bit network address and
a prefix length.  `Ipv4Net::default()` is `0.0.0.0/0`. -/
structure Ipv4Net where
  addr : Nat
  prefix_len : Nat
deriving Repr, DecidableEq

/-- Model of the `ipnet` crate's `Ipv6Net`: a 128-bit network address and
a prefix length.  `Ipv6Net::default()` is `::/0`. -/
structure Ipv6Net where
  addr : Nat
  prefix_len : Nat
deriving Repr, DecidableEq

/-- `Ipv4Net::default()` from the `ipnet` crate: address 0, prefix length
0, i.e. `0.0.0.0/0`. -/
def Ipv4Net.default : Ipv4Net := ⟨0, 0⟩

/-- `Ipv6Net::default()` from the `ipnet` crate: address 0, prefix length
0, i.e. `::/0`. -/
def Ipv6Net.default : Ipv6Net := ⟨0, 0⟩

/-- An IP address: 32-bit IPv4 or 128-bit IPv6, as a `Nat` with explicit
bounds in `IpAddr.Valid`. -/
inductive IpAddr where
  | V4 (a : Nat)
  | V6 (a : Nat)
deriving Repr, DecidableEq

/-- Validity of an address value for its family. -/
def IpAddr.Valid : IpAddr → Prop
  | .V4 a => a < 2 ^ 32
  | .V6 a => a < 2 ^ 128

/-- `IpNet` from the `ipnet` crate: either family of network. -/
inductive IpNet where
  | V4 (n : Ipv4Net)
  | V6 (n : Ipv6Net)
deriving Repr, DecidableEq

/-- Network membership for IPv4 (`Ipv4Net::contains`): the address agrees
with the network address on the `prefix_len` leading bits. -/
def Ipv4Net.containsAddr (n : Ipv4Net) (a : Nat) : Bool :=
  a / 2 ^ (32 - n.prefix_len) = n.addr / 2 ^ (32 - n.prefix_len)

/-- Network membership for IPv6 (`Ipv6Net::contains`). -/
def Ipv6Net.containsAddr (n : Ipv6Net) (a : Nat) : Bool :=
  a / 2 ^ (128 - n.prefix_len) = n.addr / 2 ^ (128 - n.prefix_len)

/-- `IpNet::contains` on an `IpAddr`: families must agree. -/
def IpNet.containsIp : IpNet → IpAddr → Bool
  | .V4 n, .V4 a => n.containsAddr a
  | .V6 n, .V6 a => n.containsAddr a
  | _, _ => false

/-- `default_cidr` (`src/restrictions/types.rs` lines 83-85):
`vec![IpNet::V4(Ipv4Net::default()), IpNet::V6(Ipv6Net::default())]`. -/
def default_cidr : List IpNet := [IpNet.V4 Ipv4Net.default, IpNet.V6 Ipv6Net.default]

/-- `MatchConfig` (`src/restrictions/types.rs` lines 20-25).  The
`PathPrefix(Regex)` variant is written `PathPrefixRe` here and carries
the compiled pattern; decoding of the variant payloads is performed
upstream by serde and `serde_regex` and is modelled as already done. -/
inductive MatchConfig where
  | Any
  | PathPrefixRe (pattern : CompiledRegex)
deriving Repr, DecidableEq

/-- Deserialized `AllowTunnelConfig` (`src/restrictions/types.rs` lines
33-48): protocol list, parsed port ranges, compiled host regex, CIDR
list. -/
structure AllowTunnelConfig where
  protocol : List TunnelConfigProtocol
  port : List (Nat × Nat)
  host : CompiledRegex
  cidr : List IpNet
deriving Repr, DecidableEq

/-- Deserialized `AllowReverseTunnelConfig` (`src/restrictions/types.rs`
lines 50-61). -/
structure AllowReverseTunnelConfig where
  protocol : List ReverseTunnelConfigProtocol
  port : List (Nat × Nat)
  cidr : List IpNet
deriving Repr, DecidableEq

/-- `AllowConfig` (`src/restrictions/types.rs` lines 27-31). -/
inductive AllowConfig where
  | ReverseTunnel (c : AllowReverseTunnelConfig)
  | Tunnel (c : AllowTunnelConfig)
deriving Repr, DecidableEq

/-- `RestrictionConfig` (`src/restrictions/types.rs` lines 12-18).  The
Rust field `r#match` is written `rmatch`. -/
structure RestrictionConfig where
  name : List Char
  rmatch : List MatchConfig
  allow : List AllowConfig
deriving Repr, DecidableEq

/-- `RestrictionsRules` (`src/restrictions/types.rs` lines 7-10). -/
structure RestrictionsRules where
  restrictions : List RestrictionConfig
deriving Repr, DecidableEq

/-- Raw (decoded but not yet validated) form of `AllowTunnelConfig`:
`none` in an optional field means the field was omitted from the
document, so serde fills the `#[serde(default)]`.  Fields whose element
decoding is done by derived serde code (`protocol`, `cidr`) are modelled
as already decoded; `port` strings and the `host` pattern still have to
go through `deserialize_port_range` and `Regex::new`. -/
structure RawAllowTunnelConfig where
  protocol : List TunnelConfigProtocol
  port : Option (List (List Char))
  host : Option (List Char)
  cidr : Option (List IpNet)
deriving Repr, DecidableEq

/-- Raw form of `AllowReverseTunnelConfig`. -/
structure RawAllowReverseTunnelConfig where
  protocol : List ReverseTunnelConfigProtocol
  port : Option (List (List Char))
  cidr : Option (List IpNet)
deriving Repr, DecidableEq

/-- Raw form of `AllowConfig`. -/
inductive RawAllowConfig where
  | ReverseTunnel (c : RawAllowReverseTunnelConfig)
  | Tunnel (c : RawAllowTunnelConfig)
deriving Repr, DecidableEq

/-- Raw form of `RestrictionConfig`: the `r#match` list elements are
decoded upstream; the non-empty check of `deserialize_non_empty_vec`
still has to run on the list. -/
structure RawRestrictionConfig where
  name : List Char
  rmatch : List MatchConfig
  allow : List RawAllowConfig
deriving Repr, DecidableEq

/-- Raw form of `RestrictionsRules`. -/
structure RawRestrictionsRules where
  restrictions : List RawRestrictionConfig
deriving Repr, DecidableEq

/-- `deserialize_non_empty_vec` (`src/restrictions/types.rs` lines
113-124), applied to the already-decoded list: an empty list is a
deserialization error. -/
def deserialize_non_empty_vec (l : List α) : Except String (List α) :=
  if l.isEmpty then .error "List must not be empty" else .ok l

/-- Deserialization of `AllowTunnelConfig`: an omitted `port` defaults to
the empty list (serde's `#[serde(default)]` skips `deserialize_port_range`),
a present one is parsed; an omitted `host` is filled by `default_host`, a
present one compiled by `Regex::new`; an omitted `cidr` is filled by
`default_cidr`. -/
def deserializeAllowTunnelConfig (r : RawAllowTunnelConfig) :
    Except String AllowTunnelConfig := do
  let port ← match r.port with
    | none => Except.ok []
    | some ss => deserialize_port_range ss
  let host ← match r.host with
    | none =>
      match default_host with
      | some c => Except.ok c
      | none => Except.error "default regex failed to compile"
    | some pat =>
      match regexNew pat with
      | some c => Except.ok c
      | none => Except.error "invalid regex"
  Except.ok ⟨r.protocol, port, host, r.cidr.getD default_cidr⟩

/-- Deserialization of `AllowReverseTunnelConfig`. -/
def deserializeAllowReverseTunnelConfig (r : RawAllowReverseTunnelConfig) :
    Except String AllowReverseTunnelConfig := do
  let port ← match r.port with
    | none => Except.ok []
    | some ss => deserialize_port_range ss
  Except.ok ⟨r.protocol, port, r.cidr.getD default_cidr⟩

/-- Deserialization of one `AllowConfig` variant. -/
def deserializeAllowConfig : RawAllowConfig → Except String AllowConfig
  | .ReverseTunnel c => (deserializeAllowReverseTunnelConfig c).map AllowConfig.ReverseTunnel
  | .Tunnel c => (deserializeAllowTunnelConfig c).map AllowConfig.Tunnel

/-- Deserialization of `RestrictionConfig`: `name` is a plain `String`
with no validation, `r#match` goes through `deserialize_non_empty_vec`,
and each `allow` entry is deserialized in order. -/
def deserializeRestrictionConfig (r : RawRestrictionConfig) :
    Except String RestrictionConfig :=
  match deserialize_non_empty_vec r.rmatch with
  | .error e => .error e
  | .ok m =>
    match collectResults (r.allow.map deserializeAllowConfig) with
    | .error e => .error e
    | .ok a => .ok ⟨r.name, m, a⟩

/-- Deserialization of `RestrictionsRules`: every rule in the list is
deserialized, first error wins. -/
def deserializeRestrictionsRules (r : RawRestrictionsRules) :
    Except String RestrictionsRules :=
  (collectResults (r.restrictions.map deserializeRestrictionConfig)).map RestrictionsRules.mk

/-- `true` iff the deserialization failed. -/
def isErr : Except String α → Bool
  | .error _ => true
  | .ok _ => false

/-- C1: the forward-tunnel protocol classifier maps `Tcp` to `Tcp` and
`Udp` to `Udp`, and every other `LocalProtocol` variant (`ReverseTcp`,
`ReverseUdp`, `ReverseSocks5`, `ReverseUnix`, `Stdio`, `Socks5`,
`TProxyTcp`, `TProxyUdp`, `Unix`) to `Unknown`, for every payload value. -/
theorem tunnelConfigProtocol_ofLocalProtocol_cases {α : Type} :
    (∀ x : α, TunnelConfigProtocol.ofLocalProtocol (.Tcp x) = .Tcp) ∧
    (∀ x : α, TunnelConfigProtocol.ofLocalProtocol (.Udp x) = .Udp) ∧
    TunnelConfigProtocol.ofLocalProtocol (LocalProtocol.ReverseTcp (α := α)) = .Unknown ∧
    (∀ x : α, TunnelConfigProtocol.ofLocalProtocol (.ReverseUdp x) = .Unknown) ∧
    TunnelConfigProtocol.ofLocalProtocol (LocalProtocol.ReverseSocks5 (α := α)) = .Unknown ∧
    (∀ x : α, TunnelConfigProtocol.ofLocalProtocol (.ReverseUnix x) = .Unknown) ∧
    TunnelConfigProtocol.ofLocalProtocol (LocalProtocol.Stdio (α := α)) = .Unknown ∧
    (∀ x : α, TunnelConfigProtocol.ofLocalProtocol (.Socks5 x) = .Unknown) ∧
    (∀ x : α, TunnelConfigProtocol.ofLocalProtocol (.TProxyTcp x) = .Unknown) ∧
    (∀ x : α, TunnelConfigProtocol.ofLocalProtocol (.TProxyUdp x) = .Unknown) ∧
    (∀ x : α, TunnelConfigProtocol.ofLocalProtocol (.Unix x) = .Unknown) := by
  refine ⟨fun _ => rfl, fun _ => rfl, rfl, fun _ => rfl, rfl, fun _ => rfl,
    rfl, fun _ => rfl, fun _ => rfl, fun _ => rfl, fun _ => rfl⟩

/-- C2: the reverse-tunnel protocol classifier maps `ReverseTcp` to `Tcp`,
`ReverseUdp` to `Udp`, `ReverseSocks5` to `Socks5`, `ReverseUnix` to
`Unix`, and every other `LocalProtocol` variant (`Tcp`, `Udp`, `Stdio`,
`Socks5`, `TProxyTcp`, `TProxyUdp`, `Unix`) to `Unknown`, for every
payload value. -/
theorem reverseTunnelConfigProtocol_ofLocalProtocol_cases {α : Type} :
    ReverseTunnelConfigProtocol.ofLocalProtocol (LocalProtocol.ReverseTcp (α := α)) = .Tcp ∧
    (∀ x : α, ReverseTunnelConfigProtocol.ofLocalProtocol (.ReverseUdp x) = .Udp) ∧
    ReverseTunnelConfigProtocol.ofLocalProtocol (LocalProtocol.ReverseSocks5 (α := α)) = .Socks5 ∧
    (∀ x : α, ReverseTunnelConfigProtocol.ofLocalProtocol (.ReverseUnix x) = .Unix) ∧
    (∀ x : α, ReverseTunnelConfigProtocol.ofLocalProtocol (.Tcp x) = .Unknown) ∧
    (∀ x : α, ReverseTunnelConfigProtocol.ofLocalProtocol (.Udp x) = .Unknown) ∧
    ReverseTunnelConfigProtocol.ofLocalProtocol (LocalProtocol.Stdio (α := α)) = .Unknown ∧
    (∀ x : α, ReverseTunnelConfigProtocol.ofLocalProtocol (.Socks5 x) = .Unknown) ∧
    (∀ x : α, ReverseTunnelConfigProtocol.ofLocalProtocol (.TProxyTcp x) = .Unknown) ∧
    (∀ x : α, ReverseTunnelConfigProtocol.ofLocalProtocol (.TProxyUdp x) = .Unknown) ∧
    (∀ x : α, ReverseTunnelConfigProtocol.ofLocalProtocol (.Unix x) = .Unknown) := by
  refine ⟨rfl, fun _ => rfl, rfl, fun _ => rfl, fun _ => rfl, fun _ => rfl,
    rfl, fun _ => rfl, fun _ => rfl, fun _ => rfl, fun _ => rfl⟩

/-- A decimal digit is not the `+` sign. -/
theorem isDigitChar_ne_plus {c : Char} (h : isDigitChar c = true) : c ≠ '+' := by
  intro he
  subst he
  exact absurd h (by decide)

/-- A decimal digit is not a dot. -/
theorem isDigitChar_ne_dot {c : Char} (h : isDigitChar c = true) : c ≠ '.' := by
  intro he
  subst he
  exact absurd h (by decide)

/-- `parseU16` on a non-empty all-digit string of value below `2^16`
returns that value. -/
theorem parseU16_digits {ds : List Char} (h1 : ds ≠ []) (h2 : ds.all isDigitChar = true)
    (h3 : digitsVal ds < 65536) : parseU16 ds = some (digitsVal ds) := by
  have hstrip : stripSign ds = ds := by
    cases ds with
    | nil => rfl
    | cons c rest =>
      have hc : isDigitChar c = true := by
        have := List.all_eq_true.mp h2
        exact this c (by simp)
      simp [stripSign, isDigitChar_ne_plus hc]
  simp only [parseU16, hstrip]
  simp [h1, h2, h3]

/-- `splitOnceDots` finds nothing in a dot-free string. -/
theorem splitOnceDots_of_no_dots {cs : List Char} (h : ∀ c ∈ cs, c ≠ '.') :
    splitOnceDots cs = none := by
  induction cs with
  | nil => rfl
  | cons c rest ih =>
    have hcond : ¬(c = '.' ∧ rest.head? = some '.') := fun hx => h c (by simp) hx.1
    simp [splitOnceDots, hcond, ih (fun x hx => h x (by simp [hx]))]

/-- `splitOnceDots` splits `l ++ ".." ++ r` at that occurrence when `l`
contains no dot. -/
theorem splitOnceDots_append {r : List Char} {l : List Char} (h : ∀ c ∈ l, c ≠ '.') :
    splitOnceDots (l ++ '.' :: '.' :: r) = some (l, r) := by
  induction l with
  | nil => simp [splitOnceDots]
  | cons c l2 ih =>
    have hcond : ¬(c = '.' ∧ (l2 ++ '.' :: '.' :: r).head? = some '.') :=
      fun hx => h c (by simp) hx.1
    rw [List.cons_append]
    simp only [splitOnceDots]
    rw [if_neg hcond, ih (fun x hx => h x (by simp [hx]))]
    rfl

/-- All-digit strings have no dots. -/
theorem all_digits_no_dots {l : List Char} (h : l.all isDigitChar = true) :
    ∀ c ∈ l, c ≠ '.' :=
  fun c hc => isDigitChar_ne_dot (List.all_eq_true.mp h c hc)

/-- `parsePortEntry` on a single all-digit port string. -/
theorem parsePortEntry_single {ds : List Char} (h1 : ds ≠ [])
    (h2 : ds.all isDigitChar = true) (h3 : digitsVal ds < 65536) :
    parsePortEntry ds = Except.ok (digitsVal ds, digitsVal ds) := by
  rw [parsePortEntry, splitOnceDots_of_no_dots (all_digits_no_dots h2),
    parseU16_digits h1 h2 h3]

/-- `parsePortEntry` on a `"<low>..<high>"` string with all-digit
bounds. -/
theorem parsePortEntry_rangeStr {l r : List Char} (hl1 : l ≠ [])
    (hl2 : l.all isDigitChar = true) (hl3 : digitsVal l < 65536) (hr1 : r ≠ [])
    (hr2 : r.all isDigitChar = true) (hr3 : digitsVal r < 65536) :
    parsePortEntry (l ++ '.' :: '.' :: r) = Except.ok (digitsVal l, digitsVal r) := by
  rw [parsePortEntry, splitOnceDots_append (all_digits_no_dots hl2)]
  simp [parseU16_digits hl1 hl2 hl3, parseU16_digits hr1 hr2 hr3]

/-- `collectResults` of a list of `ok`s is the `ok` of the list. -/
theorem collectResults_forall2 {α : Type} {l : List (Except String α)} {vs : List α}
    (h : List.Forall₂ (fun x v => x = Except.ok v) l vs) :
    collectResults l = Except.ok vs := by
  induction h with
  | nil => rfl
  | cons hx _ ih =>
    rw [hx]
    simp [collectResults, ih, Except.map]

/-- `collectResults` of a list containing an error is an error. -/
theorem collectResults_has_err {α : Type} {l : List (Except String α)} {e : String}
    (hx : Except.error e ∈ l) : isErr (collectResults l) = true := by
  induction l with
  | nil => cases hx
  | cons y rest ih =>
    cases y with
    | error e2 => simp [collectResults, isErr]
    | ok a =>
      have hmem : Except.error e ∈ rest := by
        rcases List.mem_cons.mp hx with h1 | h2
        · exact absurd h1 (by simp)
        · exact h2
      have hrest := ih hmem
      cases hr : collectResults rest with
      | error e3 => simp [collectResults, hr, isErr, Except.map]
      | ok v => rw [hr] at hrest; exact absurd hrest (by simp [isErr])

/-- `Except.map` preserves error-ness. -/
theorem isErr_map {α β : Type} (f : α → β) (x : Except String α) :
    isErr (x.map f) = isErr x := by
  cases x <;> rfl

/-- `collectResults` over a mapped list of element-wise successes. -/
theorem collectResults_map_forall2 {α β : Type} {f : α → Except String β}
    {ss : List α} {vs : List β}
    (h : List.Forall₂ (fun s v => f s = Except.ok v) ss vs) :
    collectResults (ss.map f) = Except.ok vs := by
  induction h with
  | nil => rfl
  | cons hx _ ih => simp [collectResults, hx, ih, Except.map]

/-- C4: for well-formed port strings, `deserialize_port_range` maps a
single all-digit string `p` (value below `2^16`) to the inclusive range
`[p, p]`, maps `"<low>..<high>"` with all-digit 16-bit bounds to
`[low, high]`, and maps a list of such strings element-wise, preserving
order. -/
theorem deserialize_port_range_wellformed :
    (∀ ds : List Char, ds ≠ [] → ds.all isDigitChar = true → digitsVal ds < 65536 →
      parsePortEntry ds = Except.ok (digitsVal ds, digitsVal ds)) ∧
    (∀ l r : List Char, l ≠ [] → l.all isDigitChar = true → digitsVal l < 65536 →
      r ≠ [] → r.all isDigitChar = true → digitsVal r < 65536 →
      parsePortEntry (l ++ '.' :: '.' :: r) = Except.ok (digitsVal l, digitsVal r)) ∧
    (∀ (ss : List (List Char)) (vs : List (Nat × Nat)),
      List.Forall₂ (fun s v => parsePortEntry s = Except.ok v) ss vs →
      deserialize_port_range ss = Except.ok vs) :=
  ⟨fun _ h1 h2 h3 => parsePortEntry_single h1 h2 h3,
    fun _ _ hl1 hl2 hl3 hr1 hr2 hr3 => parsePortEntry_rangeStr hl1 hl2 hl3 hr1 hr2 hr3,
    fun _ _ h => collectResults_map_forall2 h⟩

/-- Witness for C4 at `"80"` and `"1000..2000"`. -/
theorem deserialize_port_range_wellformed_witness :
    parsePortEntry ("80".data) = Except.ok (80, 80) ∧
    parsePortEntry ("1000..2000".data) = Except.ok (1000, 2000) ∧
    deserialize_port_range ["80".data, "1000..2000".data] =
      Except.ok [(80, 80), (1000, 2000)] := by
  have h1 : parsePortEntry ("80".data) = Except.ok (80, 80) :=
    deserialize_port_range_wellformed.1 ("80".data) (by decide) (by decide) (by decide)
  have h2 : parsePortEntry ("1000..2000".data) = Except.ok (1000, 2000) :=
    deserialize_port_range_wellformed.2.1 ("1000".data) ("2000".data)
      (by decide) (by decide) (by decide) (by decide) (by decide) (by decide)
  exact ⟨h1, h2, deserialize_port_range_wellformed.2.2 _ _
    (List.Forall₂.cons h1 (List.Forall₂.cons h2 List.Forall₂.nil))⟩

/-- C5: `deserialize_port_range` fails whenever any string in the list is
malformed — no `".."` and the whole string does not parse as `u16`, or a
`".."` split whose left or right side does not parse — and then no list
of ranges is produced at all (the result is an error). -/
theorem deserialize_port_range_malformed_err :
    ∀ (ss : List (List Char)) (s : List Char), s ∈ ss →
      ((splitOnceDots s = none ∧ parseU16 s = none) ∨
        (∃ l r, splitOnceDots s = some (l, r) ∧
          (parseU16 l = none ∨ parseU16 r = none))) →
      isErr (deserialize_port_range ss) = true := by
  intro ss s hmem hbad
  have herr : ∃ e, parsePortEntry s = Except.error e := by
    rcases hbad with ⟨h1, h2⟩ | ⟨l, r, h1, h2 | h2⟩
    · exact ⟨"invalid port", by rw [parsePortEntry, h1, h2]⟩
    · exact ⟨"invalid port range start", by rw [parsePortEntry, h1]; simp [h2]⟩
    · rcases hl : parseU16 l with _ | lo
      · exact ⟨"invalid port range start", by rw [parsePortEntry, h1]; simp [hl]⟩
      · exact ⟨"invalid port range end", by rw [parsePortEntry, h1]; simp [hl, h2]⟩
  rcases herr with ⟨e, he⟩
  have hm : Except.error e ∈ ss.map parsePortEntry := by
    rw [← he]
    exact List.mem_map_of_mem _ hmem
  exact collectResults_has_err hm

/-- Witness for C5: the list `["80", "abc"]` fails to deserialize. -/
theorem deserialize_port_range_malformed_err_witness :
    isErr (deserialize_port_range ["80".data, "abc".data]) = true :=
  deserialize_port_range_malformed_err _ ("abc".data) (by simp)
    (Or.inl ⟨by decide, by decide⟩)

/-- C10: a range string with reversed all-digit bounds (`low > high`) is
accepted without error, producing the inclusive range `[low, high]`,
which contains no port at all. -/
theorem deserialize_port_range_reversed_bounds :
    ∀ l r : List Char, l ≠ [] → l.all isDigitChar = true → digitsVal l < 65536 →
      r ≠ [] → r.all isDigitChar = true → digitsVal r < 65536 →
      digitsVal r < digitsVal l →
      deserialize_port_range [l ++ '.' :: '.' :: r] =
        Except.ok [(digitsVal l, digitsVal r)] ∧
      ∀ p : Nat, rangeContains (digitsVal l, digitsVal r) p = false := by
  intro l r hl1 hl2 hl3 hr1 hr2 hr3 hrev
  constructor
  · rw [deserialize_port_range]
    simp [parsePortEntry_rangeStr hl1 hl2 hl3 hr1 hr2 hr3, collectResults, Except.map]
  · intro p
    simp only [rangeContains, Bool.and_eq_false_iff, decide_eq_false_iff_not]
    omega

/-- Witness for C10 at `"2..1"`. -/
theorem deserialize_port_range_reversed_bounds_witness :
    deserialize_port_range ["2..1".data] = Except.ok [(2, 1)] ∧
    ∀ p : Nat, rangeContains (2, 1) p = false :=
  deserialize_port_range_reversed_bounds ("2".data) ("1".data)
    (by decide) (by decide) (by decide) (by decide) (by decide) (by decide) (by decide)

/-- The Kleene star of `.` matches every string. -/
theorem starDot_matches (h : List Char) (hnl : ∀ c ∈ h, c ≠ '\n') :
    REMatches (RE.star RE.dot) h := by
  induction h with
  | nil => exact REMatches.starNil RE.dot
  | cons c rest ih =>
    exact REMatches.starCons (REMatches.dot c (hnl c (by simp)))
      (ih fun x hx => hnl x (by simp [hx]))

/-- Any string matched by the Kleene star of `.` is newline-free. -/
theorem starDot_chars {r : RE} {s : List Char} (h : REMatches r s)
    (hr : r = RE.star RE.dot) : ∀ c ∈ s, c ≠ '\n' := by
  induction h with
  | eps => exact RE.noConfusion hr
  | chr c => exact RE.noConfusion hr
  | dot c hne => exact RE.noConfusion hr
  | cat h1 h2 ih1 ih2 => exact RE.noConfusion hr
  | starNil r => simp
  | starCons h1 h2 ih1 ih2 =>
    have hd : _ = RE.dot := RE.star.inj hr
    subst hd
    intro c hc
    rcases List.mem_append.mp hc with hc1 | hc2
    · cases h1 with
      | dot c2 hne =>
        have : c = c2 := by simpa using hc1
        exact this ▸ hne
    · exact ih2 rfl c hc2

/-- Any string matched by the body of the compiled `"^.*$"` pattern is
newline-free. -/
theorem catStarDotEps_chars {s : List Char}
    (h : REMatches (RE.cat (RE.star RE.dot) RE.eps) s) : ∀ c ∈ s, c ≠ '\n' := by
  cases h with
  | cat h1 h2 =>
    cases h2
    simpa using starDot_chars h1 rfl

/-- C6 counterexample: the compiled default pattern `"^.*$"` does not
match the string `"a\n"` — the `regex` crate's `.` does not match a
newline — so the default host pattern does not match every string. -/
theorem default_host_rejects_newline :
    default_host = some ⟨true, RE.cat (RE.star RE.dot) RE.eps, true⟩ ∧
    ¬ CompiledRegex.IsMatch ⟨true, RE.cat (RE.star RE.dot) RE.eps, true⟩ ("a\n".data) := by
  refine ⟨rfl, ?_⟩
  rintro ⟨pre, mid, post, heq, hpre, hpost, hm⟩
  rw [hpre rfl, hpost rfl] at heq
  simp only [List.nil_append, List.append_nil] at heq
  exact catStarDotEps_chars hm '\n' (by rw [← heq]; decide) rfl

/-- C6 (amended): `default_host` is the compilation of the pattern
`"^.*$"`, the compilation succeeds, and the compiled regex matches every
string that contains no newline character (the `regex` crate's `.`
excludes `'\n'`), so an `AllowTunnelConfig` with the host field omitted
admits any newline-free host. -/
theorem default_host_matches_newline_free :
    default_host = regexNew ("^.*$".data) ∧
    ∀ h : List Char, (∀ c ∈ h, c ≠ '\n') →
      ∃ r, default_host = some r ∧ r.IsMatch h := by
  constructor
  · rfl
  · intro h hnl
    refine ⟨⟨true, RE.cat (RE.star RE.dot) RE.eps, true⟩, by rfl, ?_⟩
    unfold CompiledRegex.IsMatch
    refine ⟨[], h, [], by simp, fun _ => rfl, fun _ => rfl, ?_⟩
    have hcat := REMatches.cat (starDot_matches h hnl) REMatches.eps
    simpa using hcat

/-- Witness for C6 (amended) at the newline-free host
`"example.com"`. -/
theorem default_host_matches_newline_free_witness :
    ∃ r, default_host = some r ∧ r.IsMatch ("example.com".data) :=
  default_host_matches_newline_free.2 ("example.com".data) (by decide)

/-- C7: `default_cidr` is exactly the match-all IPv4 network `0.0.0.0/0`
followed by the match-all IPv6 network `::/0`, and every valid IPv4 or
IPv6 address is contained in at least one of its networks. -/
theorem default_cidr_contains_every_ip :
    default_cidr = [IpNet.V4 ⟨0, 0⟩, IpNet.V6 ⟨0, 0⟩] ∧
    ∀ a : IpAddr, a.Valid → ∃ n ∈ default_cidr, IpNet.containsIp n a = true := by
  refine ⟨rfl, fun a hv => ?_⟩
  cases a with
  | V4 x =>
    refine ⟨IpNet.V4 Ipv4Net.default, by simp [default_cidr], ?_⟩
    have hx : x < 4294967296 := by
      have h32 : x < 2 ^ 32 := hv
      norm_num at h32
      exact h32
    simp [IpNet.containsIp, Ipv4Net.containsAddr, Ipv4Net.default]
    exact Nat.div_eq_of_lt hx
  | V6 x =>
    refine ⟨IpNet.V6 Ipv6Net.default, by simp [default_cidr], ?_⟩
    have hx : x < 340282366920938463463374607431768211456 := by
      have h128 : x < 2 ^ 128 := hv
      norm_num at h128
      exact h128
    simp [IpNet.containsIp, Ipv6Net.containsAddr, Ipv6Net.default]
    exact Nat.div_eq_of_lt hx

/-- Witness for C7 at the IPv4 address `10.0.0.1` and the IPv6 address
`::1`. -/
theorem default_cidr_contains_every_ip_witness :
    (∃ n ∈ default_cidr, IpNet.containsIp n (IpAddr.V4 167772161) = true) ∧
    (∃ n ∈ default_cidr, IpNet.containsIp n (IpAddr.V6 1) = true) :=
  ⟨default_cidr_contains_every_ip.2 (IpAddr.V4 167772161)
      (show (167772161 : Nat) < 2 ^ 32 by decide),
    default_cidr_contains_every_ip.2 (IpAddr.V6 1)
      (show (1 : Nat) < 2 ^ 128 by decide)⟩

/-- `deserialize_non_empty_vec` succeeds on a non-empty list, returning
it unchanged. -/
theorem deserialize_non_empty_vec_ne {α : Type} {l : List α} (h : l ≠ []) :
    deserialize_non_empty_vec l = Except.ok l := by
  cases l with
  | nil => exact absurd rfl h
  | cons a t => rfl

/-- C3: deserializing a `RestrictionConfig` whose match list is empty
fails; with a non-empty match list the non-empty check passes, so the
config deserializes whenever its allow entries do; and the check is
applied to the match field of every rule in a `RestrictionsRules` set. -/
theorem deserialize_match_nonempty_check :
    (∀ r : RawRestrictionConfig, r.rmatch = [] →
      isErr (deserializeRestrictionConfig r) = true) ∧
    (∀ r : RawRestrictionConfig, r.rmatch ≠ [] →
      deserialize_non_empty_vec r.rmatch = Except.ok r.rmatch ∧
      ∀ a, collectResults (r.allow.map deserializeAllowConfig) = Except.ok a →
        deserializeRestrictionConfig r = Except.ok ⟨r.name, r.rmatch, a⟩) ∧
    (∀ rs : RawRestrictionsRules, (∃ r ∈ rs.restrictions, r.rmatch = []) →
      isErr (deserializeRestrictionsRules rs) = true) := by
  refine ⟨?_, ?_, ?_⟩
  · intro r h
    unfold deserializeRestrictionConfig
    rw [h]
    rfl
  · intro r h
    have h1 := deserialize_non_empty_vec_ne h
    refine ⟨h1, fun a ha => ?_⟩
    unfold deserializeRestrictionConfig
    simp [h1, ha]
  · rintro rs ⟨r, hmem, hempty⟩
    unfold deserializeRestrictionsRules
    rw [isErr_map]
    apply collectResults_has_err (e := "List must not be empty")
    have hr : deserializeRestrictionConfig r = Except.error "List must not be empty" := by
      unfold deserializeRestrictionConfig
      rw [hempty]
      rfl
    rw [← hr]
    exact List.mem_map_of_mem _ hmem

/-- Witness for C3: a rule with an empty match list is rejected alone and
inside a rule set; `[Any]` passes the non-empty check. -/
theorem deserialize_match_nonempty_check_witness :
    isErr (deserializeRestrictionConfig ⟨['a'], [], []⟩) = true ∧
    deserialize_non_empty_vec [MatchConfig.Any] = Except.ok [MatchConfig.Any] ∧
    isErr (deserializeRestrictionsRules ⟨[⟨['a'], [], []⟩]⟩) = true :=
  ⟨deserialize_match_nonempty_check.1 ⟨['a'], [], []⟩ rfl,
    (deserialize_match_nonempty_check.2.1 ⟨['a'], [MatchConfig.Any], []⟩ (by simp)).1,
    deserialize_match_nonempty_check.2.2 ⟨[⟨['a'], [], []⟩]⟩ ⟨⟨['a'], [], []⟩, by simp, rfl⟩⟩

/-- C8 counterexample: a `RestrictionConfig` whose name is the empty
string is accepted by deserialization, so a loaded rule set can contain
an empty name. -/
theorem deserialize_empty_name_accepted :
    deserializeRestrictionConfig ⟨[], [MatchConfig.Any], []⟩ =
      Except.ok ⟨[], [MatchConfig.Any], []⟩ := rfl

/-- C8 (amended): deserialization applies no validation to the name
field; it is passed through unchanged, whether empty or not. -/
theorem deserialize_name_unvalidated :
    ∀ (r : RawRestrictionConfig) (c : RestrictionConfig),
      deserializeRestrictionConfig r = Except.ok c → c.name = r.name := by
  intro r c h
  unfold deserializeRestrictionConfig at h
  cases h1 : deserialize_non_empty_vec r.rmatch with
  | error e => simp [h1] at h
  | ok m =>
    cases h2 : collectResults (r.allow.map deserializeAllowConfig) with
    | error e2 => simp [h1, h2] at h
    | ok a =>
      simp [h1, h2] at h
      subst h
      rfl

/-- Witness for C8 (amended) at a concrete accepted config. -/
theorem deserialize_name_unvalidated_witness :
    RestrictionConfig.name ⟨['x'], [MatchConfig.Any], []⟩ = ['x'] :=
  deserialize_name_unvalidated ⟨['x'], [MatchConfig.Any], []⟩
    ⟨['x'], [MatchConfig.Any], []⟩ rfl

/-- C9: a `RestrictionConfig` whose allow list is empty is accepted at
load time without error, provided its match list is non-empty. -/
theorem deserialize_empty_allow_ok :
    ∀ (name : List Char) (m : List MatchConfig), m ≠ [] →
      deserializeRestrictionConfig ⟨name, m, []⟩ = Except.ok ⟨name, m, []⟩ := by
  intro name m h
  simp [deserializeRestrictionConfig, deserialize_non_empty_vec_ne h, collectResults]

/-- Witness for C9 at a concrete config with an empty allow list. -/
theorem deserialize_empty_allow_ok_witness :
    deserializeRestrictionConfig ⟨['a'], [MatchConfig.Any], []⟩ =
      Except.ok ⟨['a'], [MatchConfig.Any], []⟩ :=
  deserialize_empty_allow_ok ['a'] [MatchConfig.Any] (by simp)
